import Mathlib

/-!
# Verification of the multi-format serialization engine (`app/core/serializers.py`)

This file gives a shallow embedding of the serialization core of the
binance-endpoints repository and proves/refutes the frozen claims about it.

Modelling conventions:

* A Python value handed to a serializer (`self.data`) is modelled by `RTree`:
  a finite tree of string-keyed mappings (association lists, preserving
  insertion order like Python dicts), sequences, and scalars.
* Scalars (`Sc`) are strings, ints, bools, `None`, and floats.  Floats are
  modelled as exact decimals `f m e` denoting `m / 10^e` (with `e` digits
  after the point); this matches Python's `str`/`repr` and arithmetic on the
  decimal-literal values the analytics layer produces (binary-float rounding
  artifacts are out of scope of the modelled claims).
* Fallible Python code (KeyError, TypeError, jinja2 UndefinedError, ...)
  is modelled with `Except String`.
* String-producing helpers mirror the exact text Python produces
  (`str`, `csv.writer` with CRLF line endings and minimal quoting, etc.).
-/

set_option maxRecDepth 8000

namespace BinanceSer

/-- Scalar Python values occurring in result trees. -/
inductive Sc where
  | s (v : String)
  | i (v : Int)
  | b (v : Bool)
  | f (m : Int) (e : Nat)
  | none

/-- A Python result tree: dict (ordered assoc list), list, or scalar. -/
inductive RTree where
  | leaf (v : Sc)
  | obj (kvs : List (String × RTree))
  | arr (items : List RTree)

/-! ## Decimal digit strings (Python `str` on nonnegative integers)

`decDigits` is a fuel-based decimal digit accumulator that agrees with
core's `Nat.toDigitsCore 10` (so `toString` on `Nat`, which is also what
Python's `str` prints, can be reasoned about through it); the fuel form is
structurally recursive, so closed instances reduce in the kernel. -/

def decDigits : Nat → Nat → List Char → List Char
  | 0, _, acc => acc
  | fuel + 1, n, acc =>
    if n / 10 = 0 then Nat.digitChar (n % 10) :: acc
    else decDigits fuel (n / 10) (Nat.digitChar (n % 10) :: acc)

/-! ## Python `str` of scalars -/

/-- Python `str` of an `int`. -/
def pyIntStr (v : Int) : String :=
  match v with
  | Int.ofNat n => toString n
  | Int.negSucc n => "-" ++ toString (n + 1)

/-- Decimal rendering of the float `m / 10^e` the way Python prints the
corresponding decimal literal (always with a decimal point). -/
def pyFloatStr (m : Int) (e : Nat) : String :=
  let sign := if m < 0 then "-" else ""
  let digits := toString m.natAbs
  let digits :=
    if digits.data.length ≤ e then
      String.mk (List.replicate (e + 1 - digits.data.length) (Nat.digitChar 0)) ++ digits
    else digits
  if e = 0 then sign ++ digits ++ ".0"
  else
    sign ++ String.mk (digits.data.take (digits.data.length - e)) ++ "." ++
      String.mk (digits.data.drop (digits.data.length - e))

/-- Python `str` of a scalar. -/
def scStr : Sc → String
  | .s v => v
  | .i v => pyIntStr v
  | .b true => "True"
  | .b false => "False"
  | .f m e => pyFloatStr m e
  | .none => "None"

/-- The single-quote character, as used by Python `repr` of strings. -/
def quoteChar : Char := Char.ofNat 39

/-- Python `repr` of a scalar (strings get single quotes; escaping inside
string literals is out of the modelled scope). -/
def scRepr : Sc → String
  | .s v => String.mk (quoteChar :: v.data) ++ String.mk [quoteChar]
  | x => scStr x

/-- Separator-joined concatenation (`sep.join(parts)` in Python). -/
def joinSep (sep : String) : List String → String
  | [] => ""
  | [x] => x
  | x :: rest => x ++ sep ++ joinSep sep rest

mutual
/-- Python `repr` of a tree value. -/
def pyReprV : RTree → String
  | .leaf v => scRepr v
  | .obj kvs => "\x7b" ++ joinSep ", " (pyReprKvs kvs) ++ "\x7d"
  | .arr items => "[" ++ joinSep ", " (pyReprItems items) ++ "]"

def pyReprKvs : List (String × RTree) → List String
  | [] => []
  | (k, v) :: rest =>
      (String.mk (quoteChar :: k.data) ++ String.mk [quoteChar] ++ ": " ++ pyReprV v)
        :: pyReprKvs rest

def pyReprItems : List RTree → List String
  | [] => []
  | v :: rest => pyReprV v :: pyReprItems rest
end

/-- Python `str` of a tree value (scalars print plainly, containers as repr). -/
def pyStr : RTree → String
  | .leaf v => scStr v
  | .obj kvs => pyReprV (.obj kvs)
  | .arr items => pyReprV (.arr items)

/-! ## Generic string helpers mirroring the Python methods used by the core -/

def replAux (pat repl : List Char) : Nat → List Char → List Char
  | 0, s => s
  | _ + 1, [] => []
  | fuel + 1, c :: rest =>
    if pat.isPrefixOf (c :: rest) then
      repl ++ replAux pat repl fuel ((c :: rest).drop pat.length)
    else
      c :: replAux pat repl fuel rest

/-- Python `s.replace(pat, repl)` for a non-empty pattern: leftmost,
non-overlapping replacement. -/
def pyReplace (s pat repl : String) : String :=
  if pat.data.isEmpty then s
  else String.mk (replAux pat.data repl.data s.data.length s.data)

/-- Split a character list on a multi-character separator (used to split
CSV output on the CRLF line terminator `csv.writer` emits). -/
def splitSubAux (sep : List Char) : Nat → List Char → List Char → List (List Char)
  | 0, acc, s => [acc.reverse ++ s]
  | _ + 1, acc, [] => [acc.reverse]
  | fuel + 1, acc, c :: rest =>
    if sep.isPrefixOf (c :: rest) then
      acc.reverse :: splitSubAux sep fuel [] ((c :: rest).drop sep.length)
    else
      splitSubAux sep fuel (c :: acc) rest

def splitSub (sep : String) (s : String) : List String :=
  (splitSubAux sep.data (s.data.length + 1) [] s.data).map String.mk

/-- Containment of `needle` in `hay` (Python `needle in hay` on strings). -/
def hasInfixL (needle : List Char) : List Char → Bool
  | [] => needle.isEmpty
  | c :: rest => needle.isPrefixOf (c :: rest) || hasInfixL needle rest

/-! ## Python operations on tree values

These model the exact dynamic behaviour of the Python operations the
serializers use; operations that raise (`KeyError`, `TypeError`,
`AttributeError`) return `Except.error`. -/

/-- Ordered dict lookup (Python dict keys are unique; first match). -/
def lookupKvs (kvs : List (String × RTree)) (k : String) : Option RTree :=
  match kvs with
  | [] => Option.none
  | (k₀, v) :: rest => if k₀ = k then Option.some v else lookupKvs rest k

/-- Python `k in d` for a dict. -/
def hasKeyKvs (kvs : List (String × RTree)) (k : String) : Bool :=
  (lookupKvs kvs k).isSome

/-- Python `k in t` for an arbitrary value (`str` membership is substring
containment, list membership is element equality, non-iterables raise). -/
def pyIn (k : String) (t : RTree) : Except String Bool :=
  match t with
  | .obj kvs => pure (hasKeyKvs kvs k)
  | .arr items => pure (items.any (fun it =>
      match it with
      | .leaf (.s w) => w = k
      | _ => false))
  | .leaf (.s v) => pure (hasInfixL k.data v.data)
  | .leaf _ => throw "TypeError: argument not iterable"

/-- Python `t[k]` with a string key. -/
def pySubscript (t : RTree) (k : String) : Except String RTree :=
  match t with
  | .obj kvs =>
    match lookupKvs kvs k with
    | Option.some v => pure v
    | Option.none => throw ("KeyError: " ++ k)
  | _ => throw "TypeError: value is not subscriptable by a string"

/-- Python `t[0]`. -/
def pyIndexZero (t : RTree) : Except String RTree :=
  match t with
  | .arr (x :: _) => pure x
  | .arr [] => throw "IndexError: list index out of range"
  | .leaf (.s v) =>
    match v.data with
    | c :: _ => pure (.leaf (.s (String.mk [c])))
    | [] => throw "IndexError: string index out of range"
  | _ => throw "TypeError: value is not indexable"

/-- Python `t.get(k, default)` (dicts only; anything else raises
`AttributeError`). -/
def pyGet (t : RTree) (k : String) (dflt : RTree) : Except String RTree :=
  match t with
  | .obj kvs => pure ((lookupKvs kvs k).getD dflt)
  | _ => throw "AttributeError: value has no attribute get"

/-- Python `list(t.items())`. -/
def dictItems (t : RTree) : Except String (List (String × RTree)) :=
  match t with
  | .obj kvs => pure kvs
  | _ => throw "AttributeError: value has no attribute items"

/-- Python `list(t.keys())`. -/
def dictKeys (t : RTree) : Except String (List String) :=
  match t with
  | .obj kvs => pure (kvs.map Prod.fst)
  | _ => throw "AttributeError: value has no attribute keys"

/-- Python `for x in t`: lists yield elements, dicts their keys, strings
their characters; other scalars raise. -/
def iterItems (t : RTree) : Except String (List RTree) :=
  match t with
  | .arr items => pure items
  | .obj kvs => pure (kvs.map (fun kv => .leaf (.s kv.fst)))
  | .leaf (.s v) => pure (v.data.map (fun c => .leaf (.s (String.mk [c]))))
  | .leaf _ => throw "TypeError: value is not iterable"

/-- Python truthiness. -/
def truthy : RTree → Bool
  | .leaf (.s v) => v ≠ ""
  | .leaf (.i v) => v ≠ 0
  | .leaf (.b v) => v
  | .leaf (.f m _) => m ≠ 0
  | .leaf .none => false
  | .obj kvs => !kvs.isEmpty
  | .arr items => !items.isEmpty

/-- A Python `for` loop collecting one result per element, stopping at the
first raised error. -/
def mapE (f : α → Except String β) : List α → Except String (List β)
  | [] => pure []
  | x :: xs => do
      let y ← f x
      let ys ← mapE f xs
      pure (y :: ys)

/-! ## `csv.writer` (default dialect: minimal quoting, CRLF row terminator) -/

def csvNeedsQuote (s : String) : Bool :=
  s.data.any (fun c => c = ',' || c = '"' || c = '\r' || c = '\n')

def dupQuotes : List Char → List Char
  | [] => []
  | c :: rest => if c = '"' then '"' :: '"' :: dupQuotes rest else c :: dupQuotes rest

def csvField (s : String) : String :=
  if csvNeedsQuote s then "\"" ++ String.mk (dupQuotes s.data) ++ "\"" else s

/-- The text `csv.writer` emits for one cell: non-strings are converted
with `str()`, except `None`, which is written as the empty string (the
csv module's documented NULL handling). -/
def csvCellStr : RTree → String
  | .leaf .none => ""
  | t => pyStr t

/-- `writer.writerow(cells)`: stringify non-strings (`None` as empty),
quote minimally, join with commas, terminate with CRLF. -/
def csvRow (cells : List RTree) : String :=
  joinSep "," (cells.map (fun c => csvField (csvCellStr c))) ++ "\r\n"

/-- A string-cell row (all cells are already strings). -/
def csvRowS (cells : List String) : String :=
  csvRow (cells.map (fun c => .leaf (.s c)))

/-! ## The flattener of `CSVSerializer._serialize_generic_csv`

`flatten_dict` in the source is a generator that walks a dict and emits
`(dotted_path_key, value)` rows; dict values recurse with the joined key as
the new prefix, list elements recurse (dicts) or emit at `key_index`
(non-dicts), scalars emit directly. -/

def fullKey (pre k : String) : String :=
  if pre = "" then k else pre ++ "_" ++ k

mutual
def flattenVal (fk : String) : RTree → List (String × RTree)
  | .leaf v => [(fk, .leaf v)]
  | .obj kvs => flattenEntries fk kvs
  | .arr items => flattenList fk 0 items

def flattenEntries (pre : String) : List (String × RTree) → List (String × RTree)
  | [] => []
  | (k, v) :: rest => flattenVal (fullKey pre k) v ++ flattenEntries pre rest

def flattenList (fk : String) (i : Nat) : List RTree → List (String × RTree)
  | [] => []
  | .obj kvs :: rest =>
      flattenEntries (fk ++ "_" ++ toString i) kvs ++ flattenList fk (i + 1) rest
  | item :: rest => (fk ++ "_" ++ toString i, item) :: flattenList fk (i + 1) rest
end

/-- `flatten_dict(self.data)` : the flattened pairs of a whole data dict. -/
def flatten_dict (kvs : List (String × RTree)) : List (String × RTree) :=
  flattenEntries "" kvs

/-! ## `CSVSerializer` -/

/-- The five analytical shapes the renderers distinguish. -/
inductive Shape5 where
  | marketStats
  | technical
  | correlation
  | liquidity
  | generic
  deriving DecidableEq

namespace CSVSerializer

/-- The top-level-key dispatch of `CSVSerializer.serialize` (lines 58-69). -/
def classify (kvs : List (String × RTree)) : Shape5 :=
  if hasKeyKvs kvs "summary" then .marketStats
  else if hasKeyKvs kvs "time_series_data" then .technical
  else if hasKeyKvs kvs "correlation_matrix" then .correlation
  else if hasKeyKvs kvs "order_book_depth" then .liquidity
  else .generic

/-- `CSVSerializer._serialize_market_stats_csv`. -/
def serialize_market_stats_csv (kvs : List (String × RTree)) : Except String String := do
  let headRow := csvRowS ["metric", "value"]
  let summaryRows ←
    match lookupKvs kvs "summary" with
    | Option.none => pure ""
    | Option.some sv => do
        let items ← dictItems sv
        pure (String.join (items.map (fun kv => csvRow [.leaf (.s ("summary_" ++ kv.fst)), kv.snd])))
  let performerRows ←
    match lookupKvs kvs "rankings" with
    | Option.none => pure ""
    | Option.some rv => do
        let hasTop ← pyIn "top_performers" rv
        if hasTop then do
          let tp ← pySubscript rv "top_performers"
          let performers ← iterItems tp
          let rows ← mapE (fun p => do
              let sym ← pyGet p "symbol" (.leaf (.s ""))
              let chg ← pyGet p "price_change_percent" (.leaf (.s ""))
              pure (csvRow [sym, chg])) performers
          pure (csvRowS ["--- top_performers ---", ""]
            ++ csvRowS ["symbol", "price_change_percent"]
            ++ String.join rows)
        else pure ""
  pure (headRow ++ summaryRows ++ performerRows)

/-- `CSVSerializer._serialize_technical_csv`. -/
def serialize_technical_csv (kvs : List (String × RTree)) : Except String String := do
  match lookupKvs kvs "time_series_data" with
  | Option.none => pure ""
  | Option.some tsd =>
    if truthy tsd then do
      let first ← pyIndexZero tsd
      let headers ← dictKeys first
      let elems ← iterItems tsd
      let rows ← mapE (fun row => do
          let cells ← mapE (fun h => pyGet row h (.leaf (.s ""))) headers
          pure (csvRow cells)) elems
      pure (csvRowS headers ++ String.join rows)
    else pure ""

/-- `CSVSerializer._serialize_correlation_csv`. -/
def serialize_correlation_csv (kvs : List (String × RTree)) : Except String String := do
  match lookupKvs kvs "correlation_matrix" with
  | Option.none => pure ""
  | Option.some cm => do
    let hasRaw ← pyIn "raw_matrix" cm
    if hasRaw then do
      let matrix ← pySubscript cm "raw_matrix"
      let symbols ← dictKeys matrix
      let rows ← mapE (fun sym => do
          let mrow ← pySubscript matrix sym
          let cells ← mapE (fun other => pyGet mrow other (.leaf (.s ""))) symbols
          pure (csvRow (.leaf (.s sym) :: cells))) symbols
      pure (csvRowS ("symbol" :: symbols) ++ String.join rows)
    else pure ""

/-- `CSVSerializer._serialize_liquidity_csv`. -/
def serialize_liquidity_csv (kvs : List (String × RTree)) : Except String String := do
  let headRow := csvRowS ["side", "level", "price", "quantity", "cumulative_volume"]
  match lookupKvs kvs "order_book_depth" with
  | Option.none => pure headRow
  | Option.some obd => do
    let bids ← pyGet obd "bids" (.obj [])
    let bidRows ←
      if ← pyIn "depth_levels" bids then do
        let levels ← iterItems (← pySubscript bids "depth_levels")
        mapE (fun level => do
          let l ← pyGet level "level" (.leaf (.s ""))
          let p ← pyGet level "price" (.leaf (.s ""))
          let q ← pyGet level "quantity" (.leaf (.s ""))
          let c ← pyGet level "cumulative_volume" (.leaf (.s ""))
          pure (csvRow [.leaf (.s "bid"), l, p, q, c])) levels
      else pure []
    let asks ← pyGet obd "asks" (.obj [])
    let askRows ←
      if ← pyIn "depth_levels" asks then do
        let levels ← iterItems (← pySubscript asks "depth_levels")
        mapE (fun level => do
          let l ← pyGet level "level" (.leaf (.s ""))
          let p ← pyGet level "price" (.leaf (.s ""))
          let q ← pyGet level "quantity" (.leaf (.s ""))
          let c ← pyGet level "cumulative_volume" (.leaf (.s ""))
          pure (csvRow [.leaf (.s "ask"), l, p, q, c])) levels
      else pure []
    pure (headRow ++ String.join bidRows ++ String.join askRows)

/-- `CSVSerializer._serialize_generic_csv`. -/
def serialize_generic_csv (kvs : List (String × RTree)) : String :=
  csvRowS ["key", "value"]
    ++ String.join ((flatten_dict kvs).map (fun kv => csvRow [.leaf (.s kv.fst), kv.snd]))

/-- `CSVSerializer.serialize` (the data handed to a serializer is a dict). -/
def serialize (data : RTree) : Except String String :=
  match data with
  | .obj kvs =>
    if hasKeyKvs kvs "summary" then serialize_market_stats_csv kvs
    else if hasKeyKvs kvs "time_series_data" then serialize_technical_csv kvs
    else if hasKeyKvs kvs "correlation_matrix" then serialize_correlation_csv kvs
    else if hasKeyKvs kvs "order_book_depth" then serialize_liquidity_csv kvs
    else pure (serialize_generic_csv kvs)
  | _ => throw "TypeError: serializer data must be a mapping"

end CSVSerializer

/-! ## jinja2 expression semantics (default environment, default `Undefined`)

The HTML serializer renders jinja2 templates with `render(**self.data,
timestamp=...)`.  The model below follows jinja2's documented behaviour:

* an absent top-level name resolves to `Undefined`;
* printing `Undefined` yields `""`; its truthiness is `False`; comparing it
  with `==` yields `False`;
* attribute access **on** `Undefined`, ordering comparisons, iteration and
  numeric conversion of `Undefined` raise `UndefinedError`;
* attribute access on a defined value falls back to item lookup and yields
  `Undefined` (not an error) when both fail;
* the `format` filter is printf-style: `soft_str(value) % args`.  Applying
  it to a brace-style format string such as `"{:,.0f}"` therefore raises
  `TypeError: not all arguments converted during string formatting` for any
  argument, because the format string consumes none of the arguments. -/

namespace HTMLSerializer

/-- The top-level-key dispatch of `HTMLSerializer.serialize` (lines 211-222). -/
def classify (kvs : List (String × RTree)) : Shape5 :=
  if hasKeyKvs kvs "summary" then .marketStats
  else if hasKeyKvs kvs "time_series_data" then .technical
  else if hasKeyKvs kvs "correlation_matrix" then .correlation
  else if hasKeyKvs kvs "order_book_depth" then .liquidity
  else .generic

end HTMLSerializer

/-! ## `ChartSerializer` dispatch -/

namespace ChartSerializer

/-- The top-level-key dispatch of `ChartSerializer.serialize` (lines
586-603): note the order differs from the CSV/HTML dispatch and branches on
`rankings` rather than `summary`. -/
def classify (kvs : List (String × RTree)) : Shape5 :=
  if hasKeyKvs kvs "time_series_data" then .technical
  else if hasKeyKvs kvs "correlation_matrix" then .correlation
  else if hasKeyKvs kvs "rankings" then .marketStats
  else if hasKeyKvs kvs "order_book_depth" then .liquidity
  else .generic

end ChartSerializer

/-! ## `XMLSerializer`

`_dict_to_xml` recursively builds an `xml.etree.ElementTree` element tree;
we model the element tree itself (tag, attributes, optional text, child
list).  `ElementTree.write` is an injective rendering of this structure
(modulo markup escaping), so structural questions about "the XML output"
are settled on the element tree. -/

/-- An `ElementTree` element. -/
inductive XElem where
  | mk (tag : String) (attrs : List (String × String)) (text : Option String)
      (children : List XElem)

def XElem.tag : XElem → String
  | .mk t _ _ _ => t

def XElem.attrs : XElem → List (String × String)
  | .mk _ a _ _ => a

def XElem.text : XElem → Option String
  | .mk _ _ t _ => t

def XElem.children : XElem → List XElem
  | .mk _ _ _ c => c

namespace XMLSerializer

/-- Key sanitization of `_dict_to_xml`:
`str(k).replace(" ", "_").replace("%", "percent").replace("-", "_")`. -/
def cleanKey (k : String) : String :=
  pyReplace (pyReplace (pyReplace k " " "_") "%" "percent") "-" "_"

/-- Text assigned for a scalar at a dict value:
`str(data) if data is not None else ""`. -/
def scalarText : Sc → String
  | .none => ""
  | v => scStr v

mutual
/-- The children `_dict_to_xml` appends to an element holding a dict. -/
def xmlChildrenOfKvs : List (String × RTree) → List XElem
  | [] => []
  | (k, v) :: rest => xmlElemOfEntry k v :: xmlChildrenOfKvs rest

/-- The sub-element built for one dict entry. -/
def xmlElemOfEntry (k : String) (v : RTree) : XElem :=
  match v with
  | .obj kvs => .mk (cleanKey k) [] Option.none (xmlChildrenOfKvs kvs)
  | .arr items => .mk (cleanKey k) [] Option.none (xmlItemsOf 0 items)
  | .leaf sc => .mk (cleanKey k) [] (Option.some (scalarText sc)) []

/-- The `item` elements built for a list: dict items recurse, any non-dict
item (scalars, but also nested lists) becomes text `str(item)`. -/
def xmlItemsOf (i : Nat) : List RTree → List XElem
  | [] => []
  | .obj kvs :: rest =>
      .mk "item" [("index", toString i)] Option.none (xmlChildrenOfKvs kvs)
        :: xmlItemsOf (i + 1) rest
  | item :: rest =>
      .mk "item" [("index", toString i)] (Option.some (pyStr item)) []
        :: xmlItemsOf (i + 1) rest
end

/-- `XMLSerializer.serialize` as an element tree: root `binance_data` with a
`timestamp` attribute, children encoding the data dict. -/
def serialize_elem (kvs : List (String × RTree)) (timestamp : String) : XElem :=
  .mk "binance_data" [("timestamp", timestamp)] Option.none (xmlChildrenOfKvs kvs)

end XMLSerializer

/-! ## Reading the structure back from the XML output

The natural shape-reader over parsed elements: an element with no children
is a (string) scalar, children all carrying an `index` attribute form a
sequence, any other children form a mapping keyed by tag. -/

def hasIndexAttr (x : XElem) : Bool :=
  x.attrs.any (fun a => a.fst = "index")

mutual
def decodeElem : XElem → RTree
  | .mk _ _ text [] => .leaf (.s (text.getD ""))
  | .mk _ _ _ (c :: cs) =>
    if (c :: cs).all hasIndexAttr then .arr (decodeItems (c :: cs))
    else .obj (decodeEntries (c :: cs))

def decodeItems : List XElem → List RTree
  | [] => []
  | c :: cs => decodeElem c :: decodeItems cs

def decodeEntries : List XElem → List (String × RTree)
  | [] => []
  | c :: cs => (c.tag, decodeElem c) :: decodeEntries cs
end

/-- The mapping/sequence/scalar nesting structure of a tree (scalar content
and typing erased; mapping keys are erased too, since the markup rendering
sanitizes key names). -/
inductive ShapeT where
  | smap (children : List ShapeT)
  | sseq (children : List ShapeT)
  | ssc

mutual
def shapeOf : RTree → ShapeT
  | .leaf _ => .ssc
  | .obj kvs => .smap (shapeOfKvs kvs)
  | .arr items => .sseq (shapeOfItems items)

def shapeOfKvs : List (String × RTree) → List ShapeT
  | [] => []
  | (_, v) :: rest => shapeOf v :: shapeOfKvs rest

def shapeOfItems : List RTree → List ShapeT
  | [] => []
  | v :: rest => shapeOf v :: shapeOfItems rest
end

mutual
/-- Trees on which the XML encoding does not collapse structure: no empty
mapping, no empty sequence (both serialize like an empty scalar), and no
sequence directly inside a sequence (stringified by `_dict_to_xml`). -/
def regularV : RTree → Bool
  | .leaf _ => true
  | .obj kvs => !kvs.isEmpty && regularKvs kvs
  | .arr items => !items.isEmpty && regularItems items

def regularKvs : List (String × RTree) → Bool
  | [] => true
  | (_, v) :: rest => regularV v && regularKvs rest

def regularItems : List RTree → Bool
  | [] => true
  | .arr _ :: _ => false
  | v :: rest => regularV v && regularItems rest
end

/-! ## `get_serializer` and the content types -/

/-- The five serializer classes. -/
inductive SerializerKind where
  | json
  | csv
  | html
  | xml
  | chart
  deriving DecidableEq

/-- A constructed serializer instance: its class plus the data it holds. -/
structure Serializer where
  kind : SerializerKind
  data : RTree

/-- The `serializers` lookup dict of `get_serializer` (lines 768-774). -/
def serializers : List (String × SerializerKind) :=
  [("json", .json), ("csv", .csv), ("html", .html), ("xml", .xml), ("chart", .chart)]

/-- `get_serializer(data, format_type)` (lines 766-779): unknown format
identifiers raise `ValueError(f"Unsupported format: {format_type}")`. -/
def get_serializer (data : RTree) (format_type : String) : Except String Serializer :=
  match serializers.lookup format_type with
  | Option.some k => pure ⟨k, data⟩
  | Option.none => throw ("Unsupported format: " ++ format_type)

/-- `get_content_type` of the five serializer classes (each class hard-codes
its label and ignores the held data). -/
def get_content_type (s : Serializer) : String :=
  match s.kind with
  | .json => "application/json"
  | .csv => "text/csv"
  | .html => "text/html"
  | .xml => "application/xml"
  | .chart => "image/png"

/-! ## Derived notions used to state the claims -/

/-- One emitted CSV row of `_serialize_liquidity_csv` for a depth level. -/
def depthRow (side : String) (level : List (String × RTree)) : String :=
  csvRow [.leaf (.s side),
    (lookupKvs level "level").getD (.leaf (.s "")),
    (lookupKvs level "price").getD (.leaf (.s "")),
    (lookupKvs level "quantity").getD (.leaf (.s "")),
    (lookupKvs level "cumulative_volume").getD (.leaf (.s ""))]

/-- One emitted CSV row of `_serialize_technical_csv` for a time-series
element: the given headers looked up in the row, absent keys as empty. -/
def tsRowL (headers : List String) (row : List (String × RTree)) : String :=
  csvRow (headers.map (fun h => (lookupKvs row h).getD (.leaf (.s ""))))

mutual
/-- Key sanity at every mapping level: keys are non-empty, contain no
underscore, and are pairwise distinct (Python dicts guarantee distinctness;
the other two conditions are the amended-claim hypotheses). -/
def okKeysV : RTree → Bool
  | .leaf _ => true
  | .obj kvs => okKeysKvs kvs
  | .arr items => okKeysItems items

def okKeysKvs : List (String × RTree) → Bool
  | [] => true
  | (k, v) :: rest =>
      k != "" && k.data.all (fun c => c != '_') && !(rest.any (fun kv => kv.fst == k))
        && okKeysV v && okKeysKvs rest

def okKeysItems : List RTree → Bool
  | [] => true
  | v :: rest => okKeysV v && okKeysItems rest
end

/-- Join path components with underscores (the inverse view of the
flattener's key construction). -/
def joinU : List (List Char) → List Char
  | [] => []
  | [a] => a
  | a :: rest => a ++ '_' :: joinU rest

mutual
/-- The component paths (each component the characters of a mapping key or
of a decimal sequence index) of the pairs the flattener emits, in emission
order. -/
def pathsV : RTree → List (List (List Char))
  | .leaf _ => [[]]
  | .obj kvs => pathsKvs kvs
  | .arr items => pathsList 0 items

def pathsKvs : List (String × RTree) → List (List (List Char))
  | [] => []
  | (k, v) :: rest => (pathsV v).map (k.data :: ·) ++ pathsKvs rest

def pathsList (i : Nat) : List RTree → List (List (List Char))
  | [] => []
  | .obj kvs :: rest =>
      (pathsKvs kvs).map ((toString i).data :: ·) ++ pathsList (i + 1) rest
  | _ :: rest => [(toString i).data] :: pathsList (i + 1) rest
end

/-! ## Concrete claim inputs -/

/-- Scenario 1 data: the aggregate-summary tree of the spec. -/
def c7full : List (String × RTree) :=
  [("summary", .obj [("total_symbols", .leaf (.i 2)),
                     ("avg_price_change_percent", .leaf (.f 15 1))]),
   ("rankings", .obj [("top_performers",
      .arr [.obj [("symbol", .leaf (.s "BTCUSDT")),
                  ("price_change_percent", .leaf (.f 50 1))]])])]

/-- Scenario 1 data with the `rankings` substructure absent. -/
def c7noRank : List (String × RTree) :=
  [("summary", .obj [("total_symbols", .leaf (.i 2)),
                     ("avg_price_change_percent", .leaf (.f 15 1))])]

/-- Scenario 2 data: one bid depth level and empty asks. -/
def c8scenario : List (String × RTree) :=
  [("order_book_depth", .obj
     [("bids", .obj [("depth_levels", .arr
        [.obj [("level", .leaf (.i 1)), ("price", .leaf (.i 100)),
               ("quantity", .leaf (.i 2)), ("cumulative_volume", .leaf (.i 2))]])]),
      ("asks", .obj [("depth_levels", .arr [])])])]

theorem decDigits_eq_core (fuel : Nat) : ∀ (n : Nat) (acc : List Char),
    decDigits fuel n acc = Nat.toDigitsCore 10 fuel n acc := by
  induction fuel with
  | zero => intro n acc; rfl
  | succ g ih =>
    intro n acc
    show _ = Nat.toDigitsCore 10 (g + 1) n acc
    rw [Nat.toDigitsCore]
    by_cases h0 : n / 10 = 0
    · simp [decDigits, h0]
    · simp only [decDigits, if_neg h0]
      exact ih (n / 10) _

theorem decDigits_out (fuel n : Nat) (acc : List Char) :
    decDigits fuel n acc = decDigits fuel n [] ++ acc := by
  induction fuel generalizing n acc with
  | zero => simp [decDigits]
  | succ g ih =>
    by_cases h0 : n / 10 = 0
    · simp [decDigits, h0]
    · have e₁ := ih (n / 10) (Nat.digitChar (n % 10) :: acc)
      have e₂ := ih (n / 10) [Nat.digitChar (n % 10)]
      simp only [decDigits, if_neg h0]
      rw [e₁, e₂]
      simp

theorem decDigits_fuel_free (n : Nat) : ∀ (f₁ f₂ : Nat), n < f₁ → n < f₂ →
    ∀ acc, decDigits f₁ n acc = decDigits f₂ n acc := by
  induction n using Nat.strongRecOn with
  | _ n ih =>
    intro f₁ f₂ hf₁ hf₂ acc
    obtain ⟨g₁, rfl⟩ : ∃ g, f₁ = g + 1 := ⟨f₁ - 1, by omega⟩
    obtain ⟨g₂, rfl⟩ : ∃ g, f₂ = g + 1 := ⟨f₂ - 1, by omega⟩
    by_cases h0 : n / 10 = 0
    · simp [decDigits, h0]
    · simp only [decDigits, if_neg h0]
      exact ih (n / 10) (by omega) g₁ g₂ (by omega) (by omega) _

/-- Canonical one-step unfolding of the digits of `n` with adequate fuel:
the last digit is appended after the digits of `n / 10`. -/
theorem decDigits_spec (n : Nat) :
    decDigits (n + 1) n []
      = if n < 10 then [Nat.digitChar n]
        else decDigits (n / 10 + 1) (n / 10) [] ++ [Nat.digitChar (n % 10)] := by
  by_cases h : n < 10
  · rw [if_pos h]
    have h0 : n / 10 = 0 := by omega
    have hm : n % 10 = n := by omega
    simp [decDigits, h0, hm]
  · rw [if_neg h]
    have h0 : ¬ n / 10 = 0 := by omega
    conv_lhs => rw [decDigits]
    rw [if_neg h0, decDigits_out,
      decDigits_fuel_free (n / 10) n (n / 10 + 1) (by omega) (by omega)]

theorem decDigits_ne_nil (n : Nat) : decDigits (n + 1) n [] ≠ [] := by
  rw [decDigits_spec]
  by_cases h : n < 10 <;> simp [h]

theorem digitChar_inj : ∀ a < 10, ∀ b < 10,
    Nat.digitChar a = Nat.digitChar b → a = b := by decide

theorem digitChar_range : ∀ a < 10,
    48 ≤ (Nat.digitChar a).toNat ∧ (Nat.digitChar a).toNat ≤ 57 := by decide

theorem decDigits_inj (m : Nat) : ∀ n, decDigits (m + 1) m [] = decDigits (n + 1) n [] →
    m = n := by
  induction m using Nat.strongRecOn with
  | _ m ih =>
    intro n h
    have hm₀ := decDigits_spec m
    have hn₀ := decDigits_spec n
    by_cases hm : m < 10 <;> by_cases hn : n < 10
    · rw [if_pos hm] at hm₀
      rw [if_pos hn] at hn₀
      rw [hm₀, hn₀] at h
      exact digitChar_inj m hm n hn (by simpa using h)
    · rw [if_pos hm] at hm₀
      rw [if_neg hn] at hn₀
      rw [hm₀, hn₀] at h
      cases hl : decDigits (n / 10 + 1) (n / 10) [] with
      | nil => exact absurd hl (decDigits_ne_nil (n / 10))
      | cons c cs =>
        rw [hl] at h
        simp at h
    · rw [if_neg hm] at hm₀
      rw [if_pos hn] at hn₀
      rw [hm₀, hn₀] at h
      cases hl : decDigits (m / 10 + 1) (m / 10) [] with
      | nil => exact absurd hl (decDigits_ne_nil (m / 10))
      | cons c cs =>
        rw [hl] at h
        simp at h
    · rw [if_neg hm] at hm₀
      rw [if_neg hn] at hn₀
      rw [hm₀, hn₀] at h
      obtain ⟨hheads, hlast⟩ := List.append_inj' h rfl
      have hdiv : m / 10 = n / 10 := ih (m / 10) (by omega) (n / 10) hheads
      have hmod : m % 10 = n % 10 :=
        digitChar_inj (m % 10) (by omega) (n % 10) (by omega) (by simpa using hlast)
      omega

theorem decDigits_range (n : Nat) :
    ∀ c ∈ decDigits (n + 1) n [], 48 ≤ c.toNat ∧ c.toNat ≤ 57 := by
  induction n using Nat.strongRecOn with
  | _ n ih =>
    rw [decDigits_spec]
    by_cases h : n < 10
    · rw [if_pos h]
      intro c hc
      rw [List.mem_singleton] at hc
      subst hc
      exact digitChar_range n h
    · rw [if_neg h]
      intro c hc
      rcases List.mem_append.mp hc with hc | hc
      · exact ih (n / 10) (by omega) c hc
      · rw [List.mem_singleton] at hc
        subst hc
        exact digitChar_range (n % 10) (by omega)

theorem toString_nat_data (n : Nat) : (toString n).data = decDigits (n + 1) n [] := by
  show (Nat.repr n).data = _
  rw [Nat.repr, Nat.toDigits, decDigits_eq_core]
  rfl

theorem toString_nat_injective (m n : Nat) (h : toString m = toString n) : m = n := by
  apply decDigits_inj
  rw [← toString_nat_data, ← toString_nat_data, h]

theorem toString_nat_digits (n : Nat) :
    ∀ c ∈ (toString n).data, 48 ≤ c.toNat ∧ c.toNat ≤ 57 := by
  rw [toString_nat_data]
  exact decDigits_range n

/-! ## `mapM` evaluation lemmas for the CSV row loops -/

theorem mapE_pyGet_obj (headers : List String) (row : List (String × RTree)) (dflt : RTree) :
    mapE (fun h => pyGet (RTree.obj row) h dflt) headers
      = pure (headers.map (fun h => (lookupKvs row h).getD dflt)) := by
  induction headers with
  | nil => rfl
  | cons h hs ih => rw [mapE, ih]; simp [pyGet]

theorem mapE_tsRows (headers : List String) (rows : List (List (String × RTree))) :
    mapE (fun row => do
        let cells ← mapE (fun h => pyGet row h (RTree.leaf (.s ""))) headers
        pure (csvRow cells)) (rows.map RTree.obj)
      = pure (rows.map (tsRowL headers)) := by
  induction rows with
  | nil => rfl
  | cons r rs ih =>
    rw [List.map_cons, mapE, ih, mapE_pyGet_obj]
    simp [tsRowL]

theorem mapE_depthRows (side : String) (levels : List (List (String × RTree))) :
    mapE (fun level => do
        let l ← pyGet level "level" (RTree.leaf (.s ""))
        let p ← pyGet level "price" (RTree.leaf (.s ""))
        let q ← pyGet level "quantity" (RTree.leaf (.s ""))
        let c ← pyGet level "cumulative_volume" (RTree.leaf (.s ""))
        pure (csvRow [.leaf (.s side), l, p, q, c])) (levels.map RTree.obj)
      = pure (levels.map (depthRow side)) := by
  induction levels with
  | nil => rfl
  | cons x xs ih => rw [List.map_cons, mapE, ih]; simp [pyGet, depthRow]

/-! ## Claim C1: shape classification agreement across renderers -/

/-- C1 counterexample: the tree `{"summary": {}}` is classified as the
aggregate-summary shape by the CSV and HTML renderers, but the chart
renderer (which never checks `summary` and branches on `rankings` instead)
sends it down the generic-placeholder path — the three renderers do not
agree on a fixed identical priority order. -/
theorem C1_counterexample :
    CSVSerializer.classify [("summary", RTree.obj [])] = Shape5.marketStats ∧
    HTMLSerializer.classify [("summary", RTree.obj [])] = Shape5.marketStats ∧
    ChartSerializer.classify [("summary", RTree.obj [])] = Shape5.generic ∧
    ChartSerializer.classify [("summary", RTree.obj [])]
      ≠ CSVSerializer.classify [("summary", RTree.obj [])] := by
  refine ⟨rfl, rfl, rfl, by decide⟩

/-- C1 amended: the CSV and HTML renderers classify every tree by the
identical fixed priority order (`summary`, `time_series_data`,
`correlation_matrix`, `order_book_depth`, generic), so those two always
agree; the chart renderer dispatches in the different order
`time_series_data`, `correlation_matrix`, `rankings`, `order_book_depth`,
generic, and agrees with them only on trees with neither a `summary` nor a
`rankings` top-level key. -/
theorem C1_amended :
    (∀ kvs : List (String × RTree),
      CSVSerializer.classify kvs = HTMLSerializer.classify kvs) ∧
    (∀ kvs : List (String × RTree),
      hasKeyKvs kvs "summary" = false → hasKeyKvs kvs "rankings" = false →
      ChartSerializer.classify kvs = CSVSerializer.classify kvs) := by
  constructor
  · intro kvs
    rfl
  · intro kvs h1 h2
    simp only [ChartSerializer.classify, CSVSerializer.classify, h1, h2,
      Bool.false_eq_true, if_false]

theorem C1_amended_witness :
    ChartSerializer.classify [("order_book_depth", RTree.obj [])]
      = CSVSerializer.classify [("order_book_depth", RTree.obj [])] :=
  C1_amended.2 [("order_book_depth", RTree.obj [])] (by decide) (by decide)

/-! ## Claim C3: sparse trees and the HTML templates -/

/-- C4 counterexample: `{"a": {}}` and `{"a": []}` produce the identical
XML element tree, yet their mapping/sequence structures differ — so no
parse of the XML output can be structure-isomorphic to the input on all
well-formed trees. -/
theorem C4_counterexample :
    XMLSerializer.serialize_elem [("a", RTree.obj [])] "T"
      = XMLSerializer.serialize_elem [("a", RTree.arr [])] "T" ∧
    shapeOf (RTree.obj [("a", RTree.obj [])])
      ≠ shapeOf (RTree.obj [("a", RTree.arr [])]) := by
  constructor
  · rfl
  · intro h
    simp [shapeOf, shapeOfKvs] at h

/-! ## Claim C5: the format dispatcher -/

/-- C5: `get_serializer` raises `ValueError("Unsupported format: ...")` —
the spec's `UnsupportedFormat` — for every identifier outside
`{json, csv, html, xml, chart}`, returns the correspondingly-typed
serializer holding the given data for each of the five valid identifiers,
and the five serializer classes are pairwise distinct. -/
theorem C5_dispatcher :
    (∀ fmt : String, fmt ∉ ["json", "csv", "html", "xml", "chart"] →
      ∀ d : RTree, get_serializer d fmt = .error ("Unsupported format: " ++ fmt)) ∧
    (∀ d : RTree,
      get_serializer d "json" = .ok ⟨.json, d⟩ ∧
      get_serializer d "csv" = .ok ⟨.csv, d⟩ ∧
      get_serializer d "html" = .ok ⟨.html, d⟩ ∧
      get_serializer d "xml" = .ok ⟨.xml, d⟩ ∧
      get_serializer d "chart" = .ok ⟨.chart, d⟩) ∧
    [SerializerKind.json, .csv, .html, .xml, .chart].Nodup := by
  refine ⟨?_, fun d => ⟨rfl, rfl, rfl, rfl, rfl⟩, by decide⟩
  intro fmt h d
  have h1 : ¬ fmt = "json" := fun e => h (by simp [e])
  have h2 : ¬ fmt = "csv" := fun e => h (by simp [e])
  have h3 : ¬ fmt = "html" := fun e => h (by simp [e])
  have h4 : ¬ fmt = "xml" := fun e => h (by simp [e])
  have h5 : ¬ fmt = "chart" := fun e => h (by simp [e])
  have e1 : (fmt == "json") = false := beq_eq_false_iff_ne.mpr h1
  have e2 : (fmt == "csv") = false := beq_eq_false_iff_ne.mpr h2
  have e3 : (fmt == "html") = false := beq_eq_false_iff_ne.mpr h3
  have e4 : (fmt == "xml") = false := beq_eq_false_iff_ne.mpr h4
  have e5 : (fmt == "chart") = false := beq_eq_false_iff_ne.mpr h5
  simp only [get_serializer, serializers, List.lookup, e1, e2, e3, e4, e5]
  rfl

theorem C5_dispatcher_witness :
    get_serializer (RTree.obj []) "pdf" = .error "Unsupported format: pdf" :=
  C5_dispatcher.1 "pdf" (by decide) (RTree.obj [])

/-! ## Claim C6: the flattening scenario -/

/-- C6: flattening `{"a": {"b": 1, "c": [1, 2]}}` yields exactly the pairs
`("a_b", 1)`, `("a_c_0", 1)`, `("a_c_1", 2)`, in that (pre-order,
left-to-right) order. -/
theorem C6_flatten_scenario :
    flatten_dict [("a", .obj [("b", .leaf (.i 1)), ("c", .arr [.leaf (.i 1), .leaf (.i 2)])])]
      = [("a_b", .leaf (.i 1)), ("a_c_0", .leaf (.i 1)), ("a_c_1", .leaf (.i 2))] :=
  rfl

/-! ## Claim C7: the aggregate-summary CSV scenario -/

/-- C7: scenario 1 rendered as CSV contains the literal lines
`metric,value`, `summary_total_symbols,2` and the row `BTCUSDT,5.0`; with
the `rankings` substructure absent the top-performers sub-table is simply
omitted and serialization still succeeds. -/
theorem C7_market_stats_csv :
    (∃ out, CSVSerializer.serialize (RTree.obj c7full) = Except.ok out ∧
      "metric,value" ∈ splitSub "\r\n" out ∧
      "summary_total_symbols,2" ∈ splitSub "\r\n" out ∧
      "BTCUSDT,5.0" ∈ splitSub "\r\n" out) ∧
    CSVSerializer.serialize (RTree.obj c7noRank)
      = Except.ok "metric,value\r\nsummary_total_symbols,2\r\nsummary_avg_price_change_percent,1.5\r\n" := by
  refine ⟨⟨_, rfl, ?_, ?_, ?_⟩, rfl⟩ <;> decide

/-! ## Claim C8: the liquidity CSV layout -/

/-- C8: the liquidity CSV consists of the fixed header followed by one row
per bid depth level and then one row per ask depth level, each in input
order; on scenario 2 (one bid level, empty asks) it is exactly the header
plus a single `bid` row. -/
theorem C8_liquidity_csv :
    (∀ bids asks : List (List (String × RTree)),
      CSVSerializer.serialize (RTree.obj [("order_book_depth", RTree.obj
        [("bids", RTree.obj [("depth_levels", RTree.arr (bids.map RTree.obj))]),
         ("asks", RTree.obj [("depth_levels", RTree.arr (asks.map RTree.obj))])])])
      = Except.ok (csvRowS ["side", "level", "price", "quantity", "cumulative_volume"]
          ++ String.join (bids.map (depthRow "bid"))
          ++ String.join (asks.map (depthRow "ask")))) ∧
    CSVSerializer.serialize (RTree.obj c8scenario)
      = Except.ok "side,level,price,quantity,cumulative_volume\r\nbid,1,100,2,2\r\n" := by
  constructor
  · intro bids asks
    show (do
        let bidRows ← mapE (fun level => do
          let l ← pyGet level "level" (RTree.leaf (.s ""))
          let p ← pyGet level "price" (RTree.leaf (.s ""))
          let q ← pyGet level "quantity" (RTree.leaf (.s ""))
          let c ← pyGet level "cumulative_volume" (RTree.leaf (.s ""))
          pure (csvRow [.leaf (.s "bid"), l, p, q, c])) (bids.map RTree.obj)
        let askRows ← mapE (fun level => do
          let l ← pyGet level "level" (RTree.leaf (.s ""))
          let p ← pyGet level "price" (RTree.leaf (.s ""))
          let q ← pyGet level "quantity" (RTree.leaf (.s ""))
          let c ← pyGet level "cumulative_volume" (RTree.leaf (.s ""))
          pure (csvRow [.leaf (.s "ask"), l, p, q, c])) (asks.map RTree.obj)
        pure (csvRowS ["side", "level", "price", "quantity", "cumulative_volume"]
          ++ String.join bidRows ++ String.join askRows) : Except String String)
      = _
    rw [mapE_depthRows, mapE_depthRows]
    rfl
  · rfl

/-! ## Claim C9: content-type labels -/

/-- C9: for every data tree, the content type travelling with each of the
five renderers depends on the format identifier alone:
`json → application/json`, `csv → text/csv`, `html → text/html`,
`xml → application/xml`, `chart → image/png`. -/
theorem C9_content_types (d : RTree) :
    (get_serializer d "json").map get_content_type = .ok "application/json" ∧
    (get_serializer d "csv").map get_content_type = .ok "text/csv" ∧
    (get_serializer d "html").map get_content_type = .ok "text/html" ∧
    (get_serializer d "xml").map get_content_type = .ok "application/xml" ∧
    (get_serializer d "chart").map get_content_type = .ok "image/png" :=
  ⟨rfl, rfl, rfl, rfl, rfl⟩

/-! ## Claim C10: the technical CSV on empty and non-empty series -/

/-- C10: a tree classified as time-series whose `time_series_data` is the
empty sequence serializes to the empty string (no header row, no error);
when the sequence is non-empty, the header row is the key list of its
first element and every element becomes one row, absent keys rendering as
empty cells. -/
theorem C10_technical_csv :
    (∀ kvs : List (String × RTree),
      CSVSerializer.classify kvs = Shape5.technical →
      lookupKvs kvs "time_series_data" = Option.some (RTree.arr []) →
      CSVSerializer.serialize (RTree.obj kvs) = .ok "") ∧
    (∀ (r0 : List (String × RTree)) (rs : List (List (String × RTree))),
      CSVSerializer.serialize (RTree.obj
          [("time_series_data", RTree.arr ((r0 :: rs).map RTree.obj))])
        = .ok (csvRowS (r0.map Prod.fst)
            ++ String.join ((r0 :: rs).map (tsRowL (r0.map Prod.fst))))) := by
  constructor
  · intro kvs hcls hlook
    have hts : hasKeyKvs kvs "time_series_data" = true := by
      simp [hasKeyKvs, hlook]
    have hsum : hasKeyKvs kvs "summary" = false := by
      by_cases h : hasKeyKvs kvs "summary"
      · simp [CSVSerializer.classify, h] at hcls
      · simpa using h
    simp only [CSVSerializer.serialize, hsum, Bool.false_eq_true, if_false, hts, if_true]
    simp only [CSVSerializer.serialize_technical_csv, hlook, truthy]
    rfl
  · intro r0 rs
    show (do
        let first ← pyIndexZero (RTree.arr ((r0 :: rs).map RTree.obj))
        let headers ← dictKeys first
        let elems ← iterItems (RTree.arr ((r0 :: rs).map RTree.obj))
        let rows ← mapE (fun row => do
            let cells ← mapE (fun h => pyGet row h (.leaf (.s ""))) headers
            pure (csvRow cells)) elems
        pure (csvRowS headers ++ String.join rows) : Except String String)
      = _
    simp only [pyIndexZero, dictKeys, iterItems, List.map_cons, pure_bind]
    rw [show (RTree.obj r0 :: rs.map RTree.obj) = (r0 :: rs).map RTree.obj from rfl,
      mapE_tsRows]
    rfl

theorem C10_technical_csv_witness :
    CSVSerializer.serialize (RTree.obj [("time_series_data", RTree.arr [])]) = .ok "" :=
  C10_technical_csv.1 [("time_series_data", RTree.arr [])] (by decide) rfl

/-! ## Claim C2: flattener key uniqueness

The plan: each emitted pair corresponds to a component path (mapping keys
and decimal indices); the emitted key is the underscore-join of the path
below the running prefix.  When keys are non-empty and underscore-free the
join is injective and the paths are distinct, so the keys are distinct. -/

theorem string_ne_empty_iff (s : String) : s ≠ "" ↔ s.data ≠ [] := by
  constructor
  · intro h hd
    exact h (String.ext hd)
  · intro h hs
    subst hs
    exact h rfl

theorem string_mk_inj {l₁ l₂ : List Char} (h : String.mk l₁ = String.mk l₂) : l₁ = l₂ := by
  have := congrArg String.data h
  simpa using this

theorem append_underscore_data (a b : String) :
    (a ++ "_" ++ b).data = a.data ++ '_' :: b.data := by
  rw [String.data_append, String.data_append]
  simp

theorem fullKey_data (pre k : String) (h : pre ≠ "") :
    (fullKey pre k).data = pre.data ++ '_' :: k.data := by
  rw [fullKey, if_neg h, append_underscore_data]

theorem fullKey_ne_empty (pre k : String) (h : pre ≠ "") : fullKey pre k ≠ "" := by
  rw [string_ne_empty_iff, fullKey_data pre k h]
  simp

theorem append_underscore_ne_empty (a b : String) : a ++ "_" ++ b ≠ "" := by
  rw [string_ne_empty_iff, append_underscore_data]
  simp

theorem joinU_glue (a b : List Char) (p : List (List Char)) :
    joinU ((a ++ '_' :: b) :: p) = a ++ '_' :: joinU (b :: p) := by
  cases p with
  | nil => simp [joinU]
  | cons q qs => simp [joinU]

theorem sep_append_inj : ∀ {a b r s : List Char}, '_' ∉ a → '_' ∉ b →
    a ++ '_' :: r = b ++ '_' :: s → a = b ∧ r = s := by
  intro a
  induction a with
  | nil =>
    intro b r s _ hb h
    cases b with
    | nil => simpa using h
    | cons c bs =>
      simp only [List.nil_append, List.cons_append, List.cons.injEq] at h
      exact absurd (h.1 ▸ List.mem_cons_self c bs) hb
  | cons c as ih =>
    intro b r s ha hb h
    cases b with
    | nil =>
      simp only [List.cons_append, List.nil_append, List.cons.injEq] at h
      exact absurd (h.1 ▸ List.mem_cons_self c as) ha
    | cons c₂ bs =>
      simp only [List.cons_append, List.cons.injEq] at h
      obtain ⟨rfl, h2⟩ := h
      have ha₂ : '_' ∉ as := fun hm => ha (List.mem_cons_of_mem _ hm)
      have hb₂ : '_' ∉ bs := fun hm => hb (List.mem_cons_of_mem _ hm)
      obtain ⟨rfl, hrs⟩ := ih ha₂ hb₂ h2
      exact ⟨rfl, hrs⟩

theorem joinU_inj : ∀ (p q : List (List Char)), p ≠ [] → q ≠ [] →
    (∀ c ∈ p, '_' ∉ c) → (∀ c ∈ q, '_' ∉ c) → joinU p = joinU q → p = q := by
  intro p
  induction p with
  | nil => intro q hp; exact absurd rfl hp
  | cons a as ih =>
    intro q _ hq hcp hcq h
    cases q with
    | nil => exact absurd rfl hq
    | cons b bs =>
      cases as with
      | nil =>
        cases bs with
        | nil => simpa [joinU] using h
        | cons b₂ bs₂ =>
          simp only [joinU] at h
          have : '_' ∈ a := by
            rw [h]
            exact List.mem_append_right _ (List.mem_cons_self _ _)
          exact absurd this (hcp a (List.mem_cons_self _ _))
      | cons a₂ as₂ =>
        cases bs with
        | nil =>
          simp only [joinU] at h
          have : '_' ∈ b := by
            rw [← h]
            exact List.mem_append_right _ (List.mem_cons_self _ _)
          exact absurd this (hcq b (List.mem_cons_self _ _))
        | cons b₂ bs₂ =>
          simp only [joinU] at h
          have ha : '_' ∉ a := hcp a (List.mem_cons_self _ _)
          have hb : '_' ∉ b := hcq b (List.mem_cons_self _ _)
          obtain ⟨rfl, hj⟩ := sep_append_inj ha hb h
          have := ih (b₂ :: bs₂) (by simp) (by simp)
            (fun c hc => hcp c (List.mem_cons_of_mem _ hc))
            (fun c hc => hcq c (List.mem_cons_of_mem _ hc)) hj
          rw [this]

theorem toString_nat_no_underscore (n : Nat) : '_' ∉ (toString n).data := by
  intro hm
  have := toString_nat_digits n _ hm
  rw [show ('_').toNat = 95 from rfl] at this
  omega

/-! Key shape of the flattener output relative to the emitted paths. -/

mutual
theorem keysV_eq : ∀ (t : RTree) (fk : String), fk ≠ "" →
    (flattenVal fk t).map Prod.fst
      = (pathsV t).map (fun p => String.mk (joinU (fk.data :: p)))
  | .leaf v, fk, _ => by simp [flattenVal, pathsV, joinU]
  | .obj kvs, fk, h => by
      simp only [flattenVal, pathsV]
      exact keysKvs_eq kvs fk h
  | .arr its, fk, h => by
      simp only [flattenVal, pathsV]
      exact keysList_eq its fk 0 h

theorem keysKvs_eq : ∀ (kvs : List (String × RTree)) (pre : String), pre ≠ "" →
    (flattenEntries pre kvs).map Prod.fst
      = (pathsKvs kvs).map (fun p => String.mk (joinU (pre.data :: p)))
  | [], pre, _ => by simp [flattenEntries, pathsKvs]
  | (k, v) :: rest, pre, h => by
      simp only [flattenEntries, pathsKvs, List.map_append]
      rw [keysV_eq v (fullKey pre k) (fullKey_ne_empty pre k h),
        keysKvs_eq rest pre h, List.map_map]
      congr 1
      apply List.map_congr_left
      intro p _
      simp only [Function.comp]
      rw [fullKey_data pre k h, joinU_glue]
      rfl

theorem keysList_eq : ∀ (its : List RTree) (fk : String) (i : Nat), fk ≠ "" →
    (flattenList fk i its).map Prod.fst
      = (pathsList i its).map (fun p => String.mk (joinU (fk.data :: p)))
  | [], _, _, _ => by simp [flattenList, pathsList]
  | .obj kvs :: rest, fk, i, h => by
      simp only [flattenList, pathsList, List.map_append]
      rw [keysKvs_eq kvs (fk ++ "_" ++ toString i) (append_underscore_ne_empty fk (toString i)),
        keysList_eq rest fk (i + 1) h, List.map_map]
      congr 1
      apply List.map_congr_left
      intro p _
      simp only [Function.comp]
      rw [append_underscore_data, joinU_glue]
      rfl
  | .leaf sc :: rest, fk, i, h => by
      simp only [flattenList, pathsList, List.map_cons]
      rw [keysList_eq rest fk (i + 1) h]
      congr 1
      apply String.ext
      rw [append_underscore_data]
      simp [joinU]
  | .arr xs :: rest, fk, i, h => by
      simp only [flattenList, pathsList, List.map_cons]
      rw [keysList_eq rest fk (i + 1) h]
      congr 1
      apply String.ext
      rw [append_underscore_data]
      simp [joinU]
end

/-! Structure of the component paths under `okKeys`. -/

theorem pathsKvs_head : ∀ (kvs : List (String × RTree)) (p : List (List Char)),
    p ∈ pathsKvs kvs → ∃ kv ∈ kvs, ∃ tail, p = kv.fst.data :: tail := by
  intro kvs
  induction kvs with
  | nil => intro p hp; simp [pathsKvs] at hp
  | cons kv rest ih =>
    intro p hp
    obtain ⟨k, v⟩ := kv
    simp only [pathsKvs, List.mem_append, List.mem_map] at hp
    rcases hp with ⟨q, _, rfl⟩ | hp
    · exact ⟨(k, v), List.mem_cons_self _ _, q, rfl⟩
    · obtain ⟨kv₂, hkv₂, tail, rfl⟩ := ih p hp
      exact ⟨kv₂, List.mem_cons_of_mem _ hkv₂, tail, rfl⟩

theorem pathsList_head : ∀ (its : List RTree) (i : Nat) (p : List (List Char)),
    p ∈ pathsList i its → ∃ j, i ≤ j ∧ ∃ tail, p = (toString j).data :: tail := by
  intro its
  induction its with
  | nil => intro i p hp; simp [pathsList] at hp
  | cons x rest ih =>
    intro i p hp
    cases x with
    | obj kvs =>
      simp only [pathsList, List.mem_append, List.mem_map] at hp
      rcases hp with ⟨q, _, rfl⟩ | hp
      · exact ⟨i, le_refl i, q, rfl⟩
      · obtain ⟨j, hj, tail, rfl⟩ := ih (i + 1) p hp
        exact ⟨j, by omega, tail, rfl⟩
    | leaf sc =>
      simp only [pathsList, List.mem_cons] at hp
      rcases hp with rfl | hp
      · exact ⟨i, le_refl i, [], rfl⟩
      · obtain ⟨j, hj, tail, rfl⟩ := ih (i + 1) p hp
        exact ⟨j, by omega, tail, rfl⟩
    | arr xs =>
      simp only [pathsList, List.mem_cons] at hp
      rcases hp with rfl | hp
      · exact ⟨i, le_refl i, [], rfl⟩
      · obtain ⟨j, hj, tail, rfl⟩ := ih (i + 1) p hp
        exact ⟨j, by omega, tail, rfl⟩

theorem okKeysKvs_cons {k : String} {v : RTree} {rest : List (String × RTree)}
    (h : okKeysKvs ((k, v) :: rest) = true) :
    k ≠ "" ∧ '_' ∉ k.data ∧ (∀ kv ∈ rest, kv.fst ≠ k)
      ∧ okKeysV v = true ∧ okKeysKvs rest = true := by
  simp only [okKeysKvs, Bool.and_eq_true, bne_iff_ne, List.all_eq_true,
    Bool.not_eq_true', List.any_eq_false, beq_iff_eq] at h
  obtain ⟨⟨⟨⟨h1, h2⟩, h3⟩, h4⟩, h5⟩ := h
  refine ⟨h1, fun hm => ?_, h3, h4, h5⟩
  have := h2 '_' hm
  simp at this

mutual
theorem pathsV_comps : ∀ (t : RTree), okKeysV t = true →
    ∀ p ∈ pathsV t, ∀ c ∈ p, '_' ∉ c
  | .leaf v, _ => by intro p hp c hc; simp [pathsV] at hp; subst hp; simp at hc
  | .obj kvs, h => by
      intro p hp
      exact pathsKvs_comps kvs h p hp
  | .arr its, h => by
      intro p hp
      exact pathsList_comps its h 0 p hp

theorem pathsKvs_comps : ∀ (kvs : List (String × RTree)), okKeysKvs kvs = true →
    ∀ p ∈ pathsKvs kvs, ∀ c ∈ p, '_' ∉ c
  | [], _ => by intro p hp; simp [pathsKvs] at hp
  | (k, v) :: rest, h => by
      obtain ⟨_, hk, _, hv, hrest⟩ := okKeysKvs_cons h
      intro p hp c hc
      simp only [pathsKvs, List.mem_append, List.mem_map] at hp
      rcases hp with ⟨q, hq, rfl⟩ | hp
      · rcases List.mem_cons.mp hc with rfl | hc
        · exact hk
        · exact pathsV_comps v hv q hq c hc
      · exact pathsKvs_comps rest hrest p hp c hc

theorem pathsList_comps : ∀ (its : List RTree), okKeysItems its = true →
    ∀ (i : Nat), ∀ p ∈ pathsList i its, ∀ c ∈ p, '_' ∉ c
  | [], _ => by intro i p hp; simp [pathsList] at hp
  | .obj kvs :: rest, h => by
      have hx : okKeysV (RTree.obj kvs) = true ∧ okKeysItems rest = true := by
        simpa [okKeysItems, Bool.and_eq_true] using h
      intro i p hp c hc
      simp only [pathsList, List.mem_append, List.mem_map] at hp
      rcases hp with ⟨q, hq, rfl⟩ | hp
      · rcases List.mem_cons.mp hc with rfl | hc
        · exact toString_nat_no_underscore i
        · exact pathsKvs_comps kvs hx.1 q hq c hc
      · exact pathsList_comps rest hx.2 (i + 1) p hp c hc
  | .leaf sc :: rest, h => by
      have hx : okKeysItems rest = true := by
        simpa [okKeysItems, okKeysV, Bool.and_eq_true] using h
      intro i p hp c hc
      simp only [pathsList, List.mem_cons] at hp
      rcases hp with rfl | hp
      · rcases List.mem_cons.mp hc with rfl | hc
        · exact toString_nat_no_underscore i
        · simp at hc
      · exact pathsList_comps rest hx (i + 1) p hp c hc
  | .arr xs :: rest, h => by
      have hx : okKeysItems rest = true :=
        (by simpa [okKeysItems, okKeysV, Bool.and_eq_true] using h :
          okKeysItems xs = true ∧ okKeysItems rest = true).2
      intro i p hp c hc
      simp only [pathsList, List.mem_cons] at hp
      rcases hp with rfl | hp
      · rcases List.mem_cons.mp hc with rfl | hc
        · exact toString_nat_no_underscore i
        · simp at hc
      · exact pathsList_comps rest hx (i + 1) p hp c hc
end

mutual
theorem pathsV_nodup : ∀ (t : RTree), okKeysV t = true → (pathsV t).Nodup
  | .leaf v, _ => by simp [pathsV]
  | .obj kvs, h => by
      simp only [pathsV]
      exact pathsKvs_nodup kvs h
  | .arr its, h => by
      simp only [pathsV]
      exact pathsList_nodup its h 0

theorem pathsKvs_nodup : ∀ (kvs : List (String × RTree)), okKeysKvs kvs = true →
    (pathsKvs kvs).Nodup
  | [], _ => by simp [pathsKvs]
  | (k, v) :: rest, h => by
      obtain ⟨_, _, hdup, hv, hrest⟩ := okKeysKvs_cons h
      simp only [pathsKvs]
      refine List.Nodup.append ?_ (pathsKvs_nodup rest hrest) ?_
      · exact (pathsV_nodup v hv).map (fun p q hpq => by
          simpa using hpq)
      · intro p hp₁ hp₂
        simp only [List.mem_map] at hp₁
        obtain ⟨q, _, rfl⟩ := hp₁
        obtain ⟨kv₂, hkv₂, tail, htl⟩ := pathsKvs_head rest _ hp₂
        have : kv₂.fst.data = k.data := by
          have := htl
          simp only [List.cons.injEq] at this
          exact this.1.symm
        exact hdup kv₂ hkv₂ (String.ext this)

theorem pathsList_nodup : ∀ (its : List RTree), okKeysItems its = true →
    ∀ (i : Nat), (pathsList i its).Nodup
  | [], _ => by intro i; simp [pathsList]
  | .obj kvs :: rest, h => by
      have hx : okKeysV (RTree.obj kvs) = true ∧ okKeysItems rest = true := by
        simpa [okKeysItems, Bool.and_eq_true] using h
      intro i
      simp only [pathsList]
      refine List.Nodup.append ?_ (pathsList_nodup rest hx.2 (i + 1)) ?_
      · exact (pathsKvs_nodup kvs hx.1).map (fun p q hpq => by
          simpa using hpq)
      · intro p hp₁ hp₂
        simp only [List.mem_map] at hp₁
        obtain ⟨q, _, rfl⟩ := hp₁
        obtain ⟨j, hj, tail, htl⟩ := pathsList_head rest (i + 1) _ hp₂
        have hd : (toString j).data = (toString i).data := by
          simp only [List.cons.injEq] at htl
          exact htl.1.symm
        have : j = i := toString_nat_injective j i (String.ext hd)
        omega
  | .leaf sc :: rest, h => by
      have hx : okKeysItems rest = true := by
        simpa [okKeysItems, okKeysV, Bool.and_eq_true] using h
      intro i
      simp only [pathsList, List.nodup_cons]
      refine ⟨?_, pathsList_nodup rest hx (i + 1)⟩
      intro hp
      obtain ⟨j, hj, tail, htl⟩ := pathsList_head rest (i + 1) _ hp
      simp only [List.cons.injEq] at htl
      have : j = i := toString_nat_injective j i (String.ext htl.1.symm)
      omega
  | .arr xs :: rest, h => by
      have hx : okKeysItems rest = true :=
        (by simpa [okKeysItems, okKeysV, Bool.and_eq_true] using h :
          okKeysItems xs = true ∧ okKeysItems rest = true).2
      intro i
      simp only [pathsList, List.nodup_cons]
      refine ⟨?_, pathsList_nodup rest hx (i + 1)⟩
      intro hp
      obtain ⟨j, hj, tail, htl⟩ := pathsList_head rest (i + 1) _ hp
      simp only [List.cons.injEq] at htl
      have : j = i := toString_nat_injective j i (String.ext htl.1.symm)
      omega
end

theorem flatten_keys_eq_top : ∀ (kvs : List (String × RTree)), okKeysKvs kvs = true →
    (flatten_dict kvs).map Prod.fst = (pathsKvs kvs).map (fun p => String.mk (joinU p))
  | [], _ => by simp [flatten_dict, flattenEntries, pathsKvs]
  | (k, v) :: rest, h => by
      obtain ⟨hk, _, _, hv, hrest⟩ := okKeysKvs_cons h
      have h₁ := keysV_eq v k hk
      have h₂ := flatten_keys_eq_top rest hrest
      simp only [flatten_dict] at h₂ ⊢
      simp only [flattenEntries, pathsKvs, List.map_append, List.map_map]
      rw [show fullKey "" k = k from by simp [fullKey], h₁, h₂]
      rfl

/-- C2 counterexample: with underscores allowed inside mapping keys the
flattened keys can collide — `{"a": {"b_c": 1}, "a_b": {"c": 2}}` flattens
to the key `a_b_c` twice. -/
theorem C2_counterexample :
    ((flatten_dict [("a", .obj [("b_c", .leaf (.i 1))]),
        ("a_b", .obj [("c", .leaf (.i 2))])]).map Prod.fst)
      = ["a_b_c", "a_b_c"] ∧
    ¬ ((flatten_dict [("a", .obj [("b_c", .leaf (.i 1))]),
        ("a_b", .obj [("c", .leaf (.i 2))])]).map Prod.fst).Nodup := by
  exact ⟨rfl, by decide⟩

/-- C2 amended: for every tree whose mapping keys are non-empty, contain no
underscore, and are distinct within each mapping (the latter is automatic
for Python dicts), the flattener emits pairwise-distinct keys.  Keys
containing underscores (or an empty top-level key) can collide, as the
counterexample shows. -/
theorem C2_amended (kvs : List (String × RTree)) (h : okKeysKvs kvs = true) :
    ((flatten_dict kvs).map Prod.fst).Nodup := by
  rw [flatten_keys_eq_top kvs h]
  refine List.Nodup.map_on ?_ (pathsKvs_nodup kvs h)
  intro p₁ hp₁ p₂ hp₂ heq
  obtain ⟨_, _, _, e₁⟩ := pathsKvs_head kvs p₁ hp₁
  obtain ⟨_, _, _, e₂⟩ := pathsKvs_head kvs p₂ hp₂
  exact joinU_inj p₁ p₂ (by simp [e₁]) (by simp [e₂])
    (pathsKvs_comps kvs h p₁ hp₁) (pathsKvs_comps kvs h p₂ hp₂)
    (string_mk_inj heq)

theorem C2_amended_witness :
    okKeysKvs [("a", RTree.obj [("b", RTree.leaf (.i 1)),
        ("c", RTree.arr [RTree.leaf (.i 1), RTree.leaf (.i 2)])])] = true ∧
    ((flatten_dict [("a", RTree.obj [("b", RTree.leaf (.i 1)),
        ("c", RTree.arr [RTree.leaf (.i 1), RTree.leaf (.i 2)])])]).map Prod.fst).Nodup :=
  ⟨by decide, C2_amended _ (by decide)⟩

/-! ## Claim C4 (continued): shape recovery on non-collapsing trees -/

theorem hasIndexAttr_entry (k : String) (v : RTree) :
    hasIndexAttr (XMLSerializer.xmlElemOfEntry k v) = false := by
  cases v <;> simp [XMLSerializer.xmlElemOfEntry, hasIndexAttr, XElem.attrs]

theorem xmlItemsOf_allIndex : ∀ (its : List RTree) (i : Nat),
    (XMLSerializer.xmlItemsOf i its).all hasIndexAttr = true := by
  intro its
  induction its with
  | nil => intro i; rfl
  | cons x rest ih =>
    intro i
    cases x <;>
      simp [XMLSerializer.xmlItemsOf, hasIndexAttr, XElem.attrs, ih (i + 1)]

mutual
theorem roundtrip_entry : ∀ (k : String) (v : RTree), regularV v = true →
    shapeOf (decodeElem (XMLSerializer.xmlElemOfEntry k v)) = shapeOf v
  | _, .leaf sc, _ => by
      simp [XMLSerializer.xmlElemOfEntry, decodeElem, shapeOf]
  | k, .obj kvs, h => by
      cases kvs with
      | nil => simp [regularV] at h
      | cons kv rest =>
        have hx : regularKvs (kv :: rest) = true := by
          simpa [regularV] using h
        obtain ⟨k₂, v₂⟩ := kv
        simp only [XMLSerializer.xmlElemOfEntry, XMLSerializer.xmlChildrenOfKvs]
        rw [decodeElem]
        rw [if_neg (by simp [List.all_cons, hasIndexAttr_entry])]
        simp only [shapeOf]
        rw [show decodeEntries (XMLSerializer.xmlElemOfEntry k₂ v₂
              :: XMLSerializer.xmlChildrenOfKvs rest)
            = decodeEntries (XMLSerializer.xmlChildrenOfKvs ((k₂, v₂) :: rest)) from rfl]
        rw [roundtrip_kvs ((k₂, v₂) :: rest) hx]
  | k, .arr its, h => by
      cases its with
      | nil => simp [regularV] at h
      | cons x rest =>
        have hx : regularItems (x :: rest) = true := by
          simpa [regularV] using h
        simp only [XMLSerializer.xmlElemOfEntry]
        have hne : XMLSerializer.xmlItemsOf 0 (x :: rest) ≠ [] := by
          cases x <;> simp [XMLSerializer.xmlItemsOf]
        obtain ⟨c, cs, hcc⟩ : ∃ c cs, XMLSerializer.xmlItemsOf 0 (x :: rest) = c :: cs := by
          cases hcs : XMLSerializer.xmlItemsOf 0 (x :: rest) with
          | nil => exact absurd hcs hne
          | cons c cs => exact ⟨c, cs, rfl⟩
        rw [hcc, decodeElem]
        rw [if_pos (by rw [← hcc]; exact xmlItemsOf_allIndex (x :: rest) 0)]
        simp only [shapeOf]
        rw [← hcc, roundtrip_items (x :: rest) 0 hx]

theorem roundtrip_kvs : ∀ (kvs : List (String × RTree)), regularKvs kvs = true →
    shapeOfKvs (decodeEntries (XMLSerializer.xmlChildrenOfKvs kvs)) = shapeOfKvs kvs
  | [], _ => rfl
  | (k, v) :: rest, h => by
      have hx : regularV v = true ∧ regularKvs rest = true := by
        simpa [regularKvs, Bool.and_eq_true] using h
      simp only [XMLSerializer.xmlChildrenOfKvs, decodeEntries, shapeOfKvs]
      rw [roundtrip_entry k v hx.1, roundtrip_kvs rest hx.2]

theorem roundtrip_items : ∀ (its : List RTree) (i : Nat), regularItems its = true →
    shapeOfItems (decodeItems (XMLSerializer.xmlItemsOf i its)) = shapeOfItems its
  | [], _, _ => rfl
  | .obj kvs :: rest, i, h => by
      have hx : regularV (RTree.obj kvs) = true ∧ regularItems rest = true := by
        simpa [regularItems, Bool.and_eq_true] using h
      cases kvs with
      | nil => simp [regularV] at hx
      | cons kv rest₂ =>
        have hkvs : regularKvs (kv :: rest₂) = true := by
          simpa [regularV] using hx.1
        obtain ⟨k₂, v₂⟩ := kv
        simp only [XMLSerializer.xmlItemsOf, decodeItems, shapeOfItems,
          XMLSerializer.xmlChildrenOfKvs]
        rw [decodeElem]
        rw [if_neg (by simp [List.all_cons, hasIndexAttr_entry])]
        simp only [shapeOf]
        rw [show decodeEntries (XMLSerializer.xmlElemOfEntry k₂ v₂
              :: XMLSerializer.xmlChildrenOfKvs rest₂)
            = decodeEntries (XMLSerializer.xmlChildrenOfKvs ((k₂, v₂) :: rest₂)) from rfl]
        rw [roundtrip_kvs ((k₂, v₂) :: rest₂) hkvs,
          roundtrip_items rest (i + 1) hx.2]
  | .leaf sc :: rest, i, h => by
      have hx : regularItems rest = true := by
        simpa [regularItems, regularV, Bool.and_eq_true] using h
      simp only [XMLSerializer.xmlItemsOf, decodeItems, shapeOfItems, decodeElem, shapeOf]
      rw [roundtrip_items rest (i + 1) hx]
  | .arr xs :: rest, _, h => by
      simp [regularItems] at h
end

/-- C4 amended: the XML transformation is total by construction, but it is
structure-preserving only away from the collapsing inputs: for a data dict
containing no empty mapping, no empty sequence, and no sequence nested
directly inside a sequence, reading the element tree back (children with
`index` attributes as a sequence, other children as a mapping, childless
elements as scalars) recovers exactly the mapping/sequence/scalar nesting
structure of the input; empty mappings/sequences collapse to the same
markup, as the counterexample shows. -/
theorem C4_amended (kvs : List (String × RTree)) (ts : String)
    (h : regularV (RTree.obj kvs) = true) :
    shapeOf (decodeElem (XMLSerializer.serialize_elem kvs ts)) = shapeOf (RTree.obj kvs) := by
  cases kvs with
  | nil => simp [regularV] at h
  | cons kv rest =>
    have hx : regularKvs (kv :: rest) = true := by
      simpa [regularV] using h
    obtain ⟨k₂, v₂⟩ := kv
    simp only [XMLSerializer.serialize_elem, XMLSerializer.xmlChildrenOfKvs]
    rw [decodeElem]
    rw [if_neg (by simp [List.all_cons, hasIndexAttr_entry])]
    simp only [shapeOf]
    rw [show decodeEntries (XMLSerializer.xmlElemOfEntry k₂ v₂
          :: XMLSerializer.xmlChildrenOfKvs rest)
        = decodeEntries (XMLSerializer.xmlChildrenOfKvs ((k₂, v₂) :: rest)) from rfl]
    rw [roundtrip_kvs ((k₂, v₂) :: rest) hx]

theorem C4_amended_witness :
    regularV (RTree.obj [("a", RTree.leaf (.i 1)),
      ("b", RTree.arr [RTree.obj [("c", RTree.leaf (.s "x"))]])]) = true ∧
    shapeOf (decodeElem (XMLSerializer.serialize_elem
        [("a", RTree.leaf (.i 1)),
         ("b", RTree.arr [RTree.obj [("c", RTree.leaf (.s "x"))]])] "T"))
      = shapeOf (RTree.obj [("a", RTree.leaf (.i 1)),
          ("b", RTree.arr [RTree.obj [("c", RTree.leaf (.s "x"))]])]) :=
  ⟨by decide, C4_amended _ "T" (by decide)⟩

end BinanceSer

